import Mathlib

/-!
Verification of the type-checking pass in
`src/noirc_frontend/src/hir/type_check/expr.rs`.

The Rust source is shallowly embedded: handles (`ExprId`, `StmtId`,
`IdentId`, `FuncId`) are natural numbers, the `DefInterner` is a record of
total lookup functions for the IR nodes plus an append-only association
list for the handle-to-type table, and every `panic!`, `unimplemented!`,
`todo!` or `.expect(..)` site in the source becomes a distinct
`TypeError` constructor.  `infix_operand_type_rules` keeps its Rust
signature `Result<Type, String>`, with the exact `format!` strings
rebuilt by concatenation.  Recursion through the IR store is fuel-indexed
(the store maps ids to nodes, so the recursion is not structural); fuel
exhaustion is the dedicated error `TypeError.outOfFuel`, an artifact of
the embedding that no theorem below identifies with a source behaviour.

Types `Type`, `ArraySize`, `Signedness`, the `Param` pair, the interner
and the statement checker live outside the given source file; they are
modelled from the specification (each such definition carries a note).
`Type` is named `Typ` because `Type` is a Lean keyword.
-/

namespace NoirTC

/-- Expression handle, an opaque id owned by the IR store (spec section 3). -/
abbrev ExprId := Nat

/-- Statement handle. -/
abbrev StmtId := Nat

/-- Identifier handle. -/
abbrev IdentId := Nat

/-- Function handle (call target). -/
abbrev FuncId := Nat

/-- Modelled from the spec: integer signedness; two integer types are equal
only if both signedness and bit width match exactly (spec section 3). -/
inductive Signedness
  | Signed
  | Unsigned
deriving DecidableEq

/-- Modelled from the spec: the size of an array type, `Fixed(n)` with the
length known at check time or `Variable` (spec section 3).  The Rust
`Fixed` payload is a `u128`; lengths here come from `Vec::len`, so `Nat`
carries them exactly. -/
inductive ArraySize
  | Fixed (n : Nat)
  | Variable
deriving DecidableEq

/-- Modelled from the spec: the closed type value set of the language
(spec section 3).  Named `Typ` because `Type` is a Lean keyword; the
constructors keep the Rust names. -/
inductive Typ
  | FieldElement
  | Integer (sign : Signedness) (bit_width : Nat)
  | Constant
  | Witness
  | Public
  | Bool
  | Array (size : ArraySize) (elem : Typ)
  | Unit
  | Unknown
  | Unspecified
  | Error
deriving DecidableEq

/-- Modelled from the spec: `Type::is_variable_sized_array` — an array type
whose size is `Variable` (spec sections 3 and 4.4).  Declared outside the
`Typ` namespace only because the constructor `Typ.Bool` would capture the
result type `Bool` there. -/
def is_variable_sized_array : Typ → Bool
  | .Array .Variable _ => true
  | _ => false

/-- Modelled from the spec: `Type::is_fixed_sized_array` — an array type
whose size is `Fixed(n)` (spec sections 3 and 4.4). -/
def is_fixed_sized_array : Typ → Bool
  | .Array (.Fixed _) _ => true
  | _ => false

/-- The Rust `{:?}` (derive Debug) rendering of `Signedness`, used by the
signedness-mismatch message of `infix_operand_type_rules`. -/
def Signedness.debugFmt : Signedness → String
  | .Signed => "Signed"
  | .Unsigned => "Unsigned"

/-- The Rust `{:?}` rendering of `ArraySize`. -/
def ArraySize.debugFmt : ArraySize → String
  | .Fixed n => "Fixed(" ++ toString n ++ ")"
  | .Variable => "Variable"

/-- The Rust `{:?}` rendering of `Typ` (a `Box` prints its contents), used
by the integer catch-all message of `infix_operand_type_rules`. -/
def Typ.debugFmt : Typ → String
  | .FieldElement => "FieldElement"
  | .Integer s w => "Integer(" ++ s.debugFmt ++ ", " ++ toString w ++ ")"
  | .Constant => "Constant"
  | .Witness => "Witness"
  | .Public => "Public"
  | .Bool => "Bool"
  | .Array sz t => "Array(" ++ sz.debugFmt ++ ", " ++ t.debugFmt ++ ")"
  | .Unit => "Unit"
  | .Unknown => "Unknown"
  | .Unspecified => "Unspecified"
  | .Error => "Error"

/-- Modelled from the spec: `HirBinaryOp` is defined outside the given
source file; this pass observes a binary operator only through
`is_comparator` (spec section 4.2, rule 1), so the operator is embedded as
that single classification bit. -/
structure HirBinaryOp where
  is_comparator : Bool
deriving DecidableEq

/-- Embeds `infix_operand_type_rules` (source lines 168 to 215): the binary
operator result-type resolver, `Result<Type, String>` with the exact
`format!` message strings.  The match arms are in source order; Rust and
Lean both take the first matching arm. -/
def infix_operand_type_rules (lhs_type : Typ) (op : HirBinaryOp) (other : Typ) :
    Except String Typ :=
  if op.is_comparator then .ok .Bool
  else
    match lhs_type, other with
    | .Integer sign_x bit_width_x, .Integer sign_y bit_width_y =>
        if sign_x ≠ sign_y then
          .error ("Integers must have the same Signedness lhs is " ++
            sign_x.debugFmt ++ ", rhs is " ++ sign_y.debugFmt ++ " ")
        else if bit_width_x ≠ bit_width_y then
          .error ("Integers must have the same Bit width lhs is " ++
            toString bit_width_x ++ ", rhs is " ++ toString bit_width_y ++ " ")
        else .ok (.Integer sign_x bit_width_x)
    | .Integer _ _, .Witness | .Witness, .Integer _ _ =>
        .error "Cannot use an integer and a witness in a binary operation, try converting the witness into an integer"
    | .Integer sign_x bit_width_x, .Constant | .Constant, .Integer sign_x bit_width_x =>
        .ok (.Integer sign_x bit_width_x)
    | .Integer _ _, typ | typ, .Integer _ _ =>
        .error ("Integer cannot be used with type " ++ typ.debugFmt)
    | .Array _ _, _ | _, .Array _ _ =>
        .error "Arrays cannot be used in an infix operation"
    | .Error, _ | _, .Error => .ok .Error
    | .Unspecified, _ | _, .Unspecified => .ok .Unspecified
    | .Unknown, _ | _, .Unknown => .ok .Unknown
    | .Unit, _ | _, .Unit => .ok .Unit
    | .Witness, _ | _, .Witness => .ok .Witness
    | .Public, _ | _, .Public => .ok .Witness
    | .Bool, _ | _, .Bool => .ok .Bool
    | .FieldElement, _ | _, .FieldElement => .ok .FieldElement
    | .Constant, .Constant => .ok .Constant

/-- The value of an `Except String Typ` when it is `ok`, with the error
message erased; used to state symmetry of the resolver up to messages. -/
def okPart : Except String Typ → Option Typ
  | .ok t => some t
  | .error _ => none

/-- A key of the handle-to-type table: `push_expr_type` writes at an
expression handle, `push_ident_type` at an identifier handle, and
`id_type` reads either (`.into()` in the source converts both id kinds to
this shared index).  Modelled from the spec (section 6: `recorded_type`,
`record_type`). -/
inductive TableId
  | expr (e : ExprId)
  | ident (i : IdentId)
deriving DecidableEq

/-- One constructor per failure site of the source file.  The Rust
original panics or returns `Err`; every `panic!`, `unimplemented!`,
`todo!`, `.expect(..)` and the implicit `arr_types[0]` bounds failure
become a typed error here, carrying the values the message interpolates.
`outOfFuel` and `missingType` are artifacts of the embedding:
`outOfFuel` marks exhausted recursion fuel, and `missingType` marks a
`recorded_type` read before the handle was checked, which the spec
(section 6) makes a precondition violation. -/
inductive TypeError
  | outOfFuel
  | missingType (i : TableId)
  | iceUnresolvedIdent (i : IdentId)
  | unimplementedBoolLiteral
  | unimplementedStrLiteral
  | indexOutOfBounds
  | heterogeneousArray (left right : Typ)
  | infixTypeMismatch
  | indexRequiresArray
  | arityMismatch (expected got : Nat)
  | variableSizedArgument
  | paramTypeMismatch (expected : Typ) (param_id : IdentId) (got : Typ)
  | startRangeNotConstant
  | endRangeNotConstant
  | rangeTypesDiffer
  | nestedBlockUnsupported
  | notABlockStatement
  | prefixNotImplemented
  | predicateNotImplemented
  | ifNotImplemented
deriving DecidableEq

/-- `HirLiteral::Array` payload: the element expression handles. -/
structure HirArrayLiteral where
  contents : List ExprId
deriving DecidableEq

/-- The literal kinds matched by the walker (source lines 15 to 63).  The
boolean, integer and string payloads are never read by the checker. -/
inductive HirLiteral
  | Array (arr : HirArrayLiteral)
  | Bool (b : Bool)
  | Integer (x : Int)
  | Str (s : String)

/-- `HirInfixExpression`: left operand, operator, right operand. -/
structure HirInfixExpression where
  lhs : ExprId
  operator : HirBinaryOp
  rhs : ExprId
deriving DecidableEq

/-- `HirIndexExpression`: the indexed collection's identifier and the
index expression.  The source walker reads only `collection_name`; the
`index` handle exists (the source comment at lines 83 to 84 discusses the
index being an `ExprId`) but is never type-checked by the `Index` arm. -/
structure HirIndexExpression where
  collection_name : IdentId
  index : ExprId
deriving DecidableEq

/-- `HirCallExpression`: the callee's function id and the argument
expression handles. -/
structure HirCallExpression where
  func_id : FuncId
  arguments : List ExprId
deriving DecidableEq

/-- `HirCastExpression`: the operand and the annotated target type (the
Rust field is `r#type`; named `typ` here). -/
structure HirCastExpression where
  lhs : ExprId
  typ : Typ
deriving DecidableEq

/-- `HirForExpression`: loop variable, range bounds, body block. -/
structure HirForExpression where
  identifier : IdentId
  start_range : ExprId
  end_range : ExprId
  block : StmtId
deriving DecidableEq

/-- The expression kinds dispatched on by `type_check_expression` (source
lines 5 to 163).  `Prefix`, `Predicate` and `If` reach `todo!` in the
source, so their payloads are unobservable and omitted here. -/
inductive HirExpression
  | Ident (ident_id : IdentId)
  | Literal (literal : HirLiteral)
  | Infix (infix_expr : HirInfixExpression)
  | Index (index_expr : HirIndexExpression)
  | Call (call_expr : HirCallExpression)
  | Cast (cast_expr : HirCastExpression)
  | For (for_expr : HirForExpression)
  | Prefix
  | Predicate
  | If

/-- `HirBlockStatement`: the statement handles of a block, as returned by
`block_stmt.statements()`. -/
structure HirBlockStatement where
  statements : List StmtId
deriving DecidableEq

/-- The statement kinds read by this file: `extract_last_type_from_block`
distinguishes `Block`, `Expression` and everything else (its `_` arm).
`Other` is modelled from the spec and stands for the remaining statement
kinds (declarations, constraints, ...), which hold no expression this
model checks. -/
inductive HirStatement
  | Block (block_stmt : HirBlockStatement)
  | Expression (expr_id : ExprId)
  | Other
deriving DecidableEq

/-- Modelled from the spec: a function parameter, the pair of the
parameter's identifier and its declared type (`param.0` and `param.1` in
`check_param_argument`; here `.1` and `.2`). -/
abbrev Param := IdentId × Typ

/-- Modelled from the spec (section 6, `function_signature`): the callee
data read by the `Call` arm — ordered parameters and the return type. -/
structure FuncMeta where
  parameters : List Param
  return_type : Typ

/-- Modelled from the spec (sections 3 and 6): the IR store.  `exprs`,
`stmts` and `funcs` are total lookups (the store owns every handle);
`ident_defs` is partial because the source calls `.expect(..)` on it; the
handle-to-type table `idTypes` is an append-only association list —
`record_type` is "write-once append" per the spec, and appending keeps
the write order observable. -/
structure DefInterner where
  exprs : ExprId → HirExpression
  stmts : StmtId → HirStatement
  ident_defs : IdentId → Option IdentId
  funcs : FuncId → FuncMeta
  idTypes : List (TableId × Typ)

/-- `DefInterner::id_type`: the recorded type of a handle, the most recent
entry winning (irrelevant when no handle is written twice). -/
def DefInterner.id_type (I : DefInterner) (i : TableId) : Option Typ :=
  (I.idTypes.reverse.find? (fun p => p.1 = i)).map (fun p => p.2)

/-- `DefInterner::push_expr_type`: append the type recorded for an
expression handle. -/
def DefInterner.push_expr_type (I : DefInterner) (e : ExprId) (t : Typ) : DefInterner :=
  { I with idTypes := I.idTypes ++ [(.expr e, t)] }

/-- `DefInterner::push_ident_type`: append the type recorded for an
identifier handle. -/
def DefInterner.push_ident_type (I : DefInterner) (i : IdentId) (t : Typ) : DefInterner :=
  { I with idTypes := I.idTypes ++ [(.ident i, t)] }

/-- Embeds `check_param_argument` (source lines 217 to 236): `none` is
acceptance, `some` is the corresponding panic. -/
def check_param_argument (param : Param) (arg_type : Typ) : Option TypeError :=
  let param_type := param.2
  let param_id := param.1
  if is_variable_sized_array arg_type then
    some .variableSizedArgument
  else if is_variable_sized_array param_type && is_fixed_sized_array arg_type then
    none
  else if param_type ≠ arg_type then
    some (.paramTypeMismatch param_type param_id arg_type)
  else none

/-- The `Call` arm's loop over `parameters.iter().zip(arg_types)` (source
lines 108 to 110): the first failing pair's error, `none` when all pairs
are accepted. -/
def check_params : List (Param × Typ) → Option TypeError
  | [] => none
  | (param, arg) :: rest =>
      match check_param_argument param arg with
      | some er => some er
      | none => check_params rest

/-- The `windows(2)` loop of the array-literal arm (source lines 44 to
51): the first adjacent pair of unequal element types, `none` when all
adjacent pairs are equal. -/
def firstMismatch : List Typ → Option (Typ × Typ)
  | left_type :: right_type :: rest =>
      if left_type ≠ right_type then some (left_type, right_type)
      else firstMismatch (right_type :: rest)
  | _ => none

/-- The array-literal logic of the walker once the element types
`arr_types` are collected (source lines 26 to 53), in source order:
first `arr_types[0]` is read (a bounds failure on an empty literal), then
the one-element case returns early, then the sliding window checks
homogeneity. -/
def arrayLiteralType (arr_types : List Typ) : Except TypeError Typ :=
  match arr_types.get? 0 with
  | none => .error .indexOutOfBounds
  | some first =>
      let arr_type := Typ.Array (.Fixed arr_types.length) first
      if arr_types.length = 1 then .ok arr_type
      else
        match firstMismatch arr_types with
        | some (left_type, right_type) =>
            .error (.heterogeneousArray left_type right_type)
        | none => .ok arr_type

/-- Embeds `extract_last_type_from_block` (source lines 241 to 262): the
type of a block's trailing statement when that statement is an expression
statement, `Unit` when the block is empty or ends in a non-expression
statement, and the two panics (a trailing nested block; a non-block
handle) as errors. -/
def extract_last_type_from_block (I : DefInterner) (stmt_id : StmtId) :
    Except TypeError Typ :=
  match I.stmts stmt_id with
  | .Block block_stmt =>
      match block_stmt.statements.getLast? with
      | none => .ok .Unit
      | some last_stmt_id =>
          match I.stmts last_stmt_id with
          | .Expression expr_id =>
              match I.id_type (.expr expr_id) with
              | some t => .ok t
              | none => .error (.missingType (.expr expr_id))
          | .Block _ => .error .nestedBlockUnsupported
          | .Other => .ok .Unit
  | _ => .error .notABlockStatement

mutual

/-- Embeds `type_check_expression` (source lines 3 to 164).  The result
pairs the updated interner with `none` on success and the first failure
otherwise; the arms are in source order and every recursive call, lookup
and push keeps the source's sequencing (in particular the `Call` arm
checks arity before type-checking any argument, and the `Index` arm never
type-checks its index operand).  The first argument is recursion fuel. -/
def type_check_expression : Nat → DefInterner → ExprId → DefInterner × Option TypeError
  | 0, I, _ => (I, some .outOfFuel)
  | Nat.succ n, I, expr_id =>
    match I.exprs expr_id with
    | .Ident ident_id =>
        match I.ident_defs ident_id with
        | none => (I, some (.iceUnresolvedIdent ident_id))
        | some ident_def_id =>
            match I.id_type (.ident ident_def_id) with
            | none => (I, some (.missingType (.ident ident_def_id)))
            | some typ => (I.push_expr_type expr_id typ, none)
    | .Literal literal =>
        match literal with
        | .Array arr =>
            match check_expr_list n I arr.contents with
            | (I1, .error er) => (I1, some er)
            | (I1, .ok arr_types) =>
                match arrayLiteralType arr_types with
                | .error er => (I1, some er)
                | .ok arr_type => (I1.push_expr_type expr_id arr_type, none)
        | .Bool _ => (I, some .unimplementedBoolLiteral)
        | .Integer _ => (I.push_expr_type expr_id .Constant, none)
        | .Str _ => (I, some .unimplementedStrLiteral)
    | .Infix infix_expr =>
        match type_check_expression n I infix_expr.lhs with
        | (I1, some er) => (I1, some er)
        | (I1, none) =>
          match I1.id_type (.expr infix_expr.lhs) with
          | none => (I1, some (.missingType (.expr infix_expr.lhs)))
          | some lhs_type =>
            match type_check_expression n I1 infix_expr.rhs with
            | (I2, some er) => (I2, some er)
            | (I2, none) =>
              match I2.id_type (.expr infix_expr.rhs) with
              | none => (I2, some (.missingType (.expr infix_expr.rhs)))
              | some rhs_type =>
                match infix_operand_type_rules lhs_type infix_expr.operator rhs_type with
                | .error _ => (I2, some .infixTypeMismatch)
                | .ok result_type => (I2.push_expr_type expr_id result_type, none)
    | .Index index_expr =>
        match I.ident_defs index_expr.collection_name with
        | none => (I, some (.iceUnresolvedIdent index_expr.collection_name))
        | some ident_def =>
          match I.id_type (.ident ident_def) with
          | none => (I, some (.missingType (.ident ident_def)))
          | some collection_type =>
            match collection_type with
            | .Array _ base_type => (I.push_expr_type expr_id base_type, none)
            | _ => (I, some .indexRequiresArray)
    | .Call call_expr =>
        let func_meta := I.funcs call_expr.func_id
        let param_len := func_meta.parameters.length
        let arg_len := call_expr.arguments.length
        if param_len ≠ arg_len then
          (I, some (.arityMismatch param_len arg_len))
        else
          match check_expr_list n I call_expr.arguments with
          | (I1, .error er) => (I1, some er)
          | (I1, .ok arg_types) =>
              match check_params (func_meta.parameters.zip arg_types) with
              | some er => (I1, some er)
              | none => (I1.push_expr_type expr_id func_meta.return_type, none)
    | .Cast cast_expr =>
        match type_check_expression n I cast_expr.lhs with
        | (I1, some er) => (I1, some er)
        | (I1, none) =>
          match I1.id_type (.expr cast_expr.lhs) with
          | none => (I1, some (.missingType (.expr cast_expr.lhs)))
          | some _ => (I1.push_expr_type expr_id cast_expr.typ, none)
    | .For for_expr =>
        match type_check_expression n I for_expr.start_range with
        | (I1, some er) => (I1, some er)
        | (I1, none) =>
          match type_check_expression n I1 for_expr.end_range with
          | (I2, some er) => (I2, some er)
          | (I2, none) =>
            match I2.id_type (.expr for_expr.start_range) with
            | none => (I2, some (.missingType (.expr for_expr.start_range)))
            | some start_range_type =>
              match I2.id_type (.expr for_expr.end_range) with
              | none => (I2, some (.missingType (.expr for_expr.end_range)))
              | some end_range_type =>
                if start_range_type ≠ Typ.Constant then
                  (I2, some .startRangeNotConstant)
                else if end_range_type ≠ Typ.Constant then
                  (I2, some .endRangeNotConstant)
                else if start_range_type ≠ end_range_type then
                  (I2, some .rangeTypesDiffer)
                else
                  let I3 := I2.push_ident_type for_expr.identifier start_range_type
                  match stmt_type_check n I3 for_expr.block with
                  | (I4, some er) => (I4, some er)
                  | (I4, none) =>
                    match extract_last_type_from_block I4 for_expr.block with
                    | .error er => (I4, some er)
                    | .ok last_type =>
                        (I4.push_expr_type expr_id (.Array .Variable last_type), none)
    | .Prefix => (I, some .prefixNotImplemented)
    | .Predicate => (I, some .predicateNotImplemented)
    | .If => (I, some .ifNotImplemented)

/-- The element loops of the `Array` literal arm (source lines 17 to 22)
and of the `Call` arm (source lines 101 to 105): type-check each
expression in order and collect its recorded type, stopping at the first
failure.  An empty list consumes no fuel, mirroring a loop body that
never runs. -/
def check_expr_list : Nat → DefInterner → List ExprId →
    DefInterner × Except TypeError (List Typ)
  | _, I, [] => (I, .ok [])
  | 0, I, _ :: _ => (I, .error .outOfFuel)
  | Nat.succ n, I, e :: rest =>
      match type_check_expression n I e with
      | (I1, some er) => (I1, .error er)
      | (I1, none) =>
        match I1.id_type (.expr e) with
        | none => (I1, .error (.missingType (.expr e)))
        | some t =>
          match check_expr_list n I1 rest with
          | (I2, .ok ts) => (I2, .ok (t :: ts))
          | (I2, .error er) => (I2, .error er)

/-- Modelled from the spec: `super::stmt::type_check` is outside the
given source file.  Spec sections 2 and 6 give its contract — checking a
block checks everything inside it, so that afterwards every expression in
the block has a recorded type; an expression statement checks its
expression; the remaining statement kinds hold nothing this model
checks. -/
def stmt_type_check : Nat → DefInterner → StmtId → DefInterner × Option TypeError
  | 0, I, _ => (I, some .outOfFuel)
  | Nat.succ n, I, stmt_id =>
      match I.stmts stmt_id with
      | .Block block_stmt => check_stmt_list n I block_stmt.statements
      | .Expression expr_id => type_check_expression n I expr_id
      | .Other => (I, none)

/-- Modelled from the spec: checking a block's statements in order,
stopping at the first failure (part of the `stmt_type_check` model). -/
def check_stmt_list : Nat → DefInterner → List StmtId → DefInterner × Option TypeError
  | _, I, [] => (I, none)
  | 0, I, _ :: _ => (I, some .outOfFuel)
  | Nat.succ n, I, s :: rest =>
      match stmt_type_check n I s with
      | (I1, some er) => (I1, some er)
      | (I1, none) => check_stmt_list n I1 rest

end

end NoirTC

deriving instance DecidableEq for Except

namespace NoirTC

/-- A non-comparison operator (the resolver observes nothing else about
an operator, see `HirBinaryOp`). -/
def plainOp : HirBinaryOp := ⟨false⟩

/-- A comparison operator. -/
def cmpOp : HirBinaryOp := ⟨true⟩

/-- C6: for every pair of operand types — including `Array`, `Error`,
`Unknown`, `Unspecified`, `Unit`, and mismatched `Integer` pairs —
`infix_operand_type_rules` applied with a comparison operator returns
`Ok(Type::Bool)` and never returns an error. -/
theorem claim_c6 (a b : Typ) (op : HirBinaryOp) (h : op.is_comparator = true) :
    infix_operand_type_rules a op b = .ok .Bool := by
  simp [infix_operand_type_rules, h]

/-- Witness for C6 at a concrete pair: an array against `Error` under a
comparison operator still yields `Bool`. -/
theorem claim_c6_witness :
    infix_operand_type_rules (.Array .Variable .Unit) cmpOp .Error = .ok .Bool :=
  claim_c6 _ _ cmpOp rfl

/-- C1 (amended): for every non-comparison operator and every `Integer`
type, `infix_operand_type_rules` applied to an `Integer` operand and an
`Error` operand (in either order) is decided by the integer catch-all
rule (spec section 4.2, rule 5), which fires before the `Error`-absorbing
rule: the result is the incompatible-operand error naming `Error`, not
`Ok(Type::Error)`. -/
theorem claim_c1 (op : HirBinaryOp) (s : Signedness) (w : Nat)
    (h : op.is_comparator = false) :
    infix_operand_type_rules (.Integer s w) op .Error =
      .error "Integer cannot be used with type Error" ∧
    infix_operand_type_rules .Error op (.Integer s w) =
      .error "Integer cannot be used with type Error" := by
  constructor <;> simp [infix_operand_type_rules, h, Typ.debugFmt]

/-- C1 counterexample: at `Integer(Unsigned, 8)` and `Error` under a
non-comparison operator the resolver does not return `Ok(Type::Error)`
(it returns the integer catch-all error). -/
theorem claim_c1_counterexample :
    infix_operand_type_rules (.Integer .Unsigned 8) plainOp .Error ≠ .ok .Error := by
  decide

/-- Witness for C1 at `Integer(Unsigned, 8)` and a concrete
non-comparison operator. -/
theorem claim_c1_witness :
    infix_operand_type_rules (.Integer .Unsigned 8) plainOp .Error =
      .error "Integer cannot be used with type Error" ∧
    infix_operand_type_rules .Error plainOp (.Integer .Unsigned 8) =
      .error "Integer cannot be used with type Error" :=
  claim_c1 plainOp .Unsigned 8 rfl

/-- C5: for every non-comparison operator, `infix_operand_type_rules` on
two `Integer` operands returns that exact `Integer` type when both
signedness and bit width match; when signedness differs it returns the
signedness-mismatch error (for every pair of bit widths, matching or not:
signedness is checked first), and when signedness matches but bit width
differs it returns the bit-width-mismatch error. -/
theorem claim_c5 (op : HirBinaryOp) (s s' : Signedness) (w w' : Nat)
    (h : op.is_comparator = false) :
    (infix_operand_type_rules (.Integer s w) op (.Integer s w) = .ok (.Integer s w)) ∧
    (s ≠ s' → infix_operand_type_rules (.Integer s w) op (.Integer s' w') =
      .error ("Integers must have the same Signedness lhs is " ++ s.debugFmt ++
        ", rhs is " ++ s'.debugFmt ++ " ")) ∧
    (w ≠ w' → infix_operand_type_rules (.Integer s w) op (.Integer s w') =
      .error ("Integers must have the same Bit width lhs is " ++ toString w ++
        ", rhs is " ++ toString w' ++ " ")) := by
  refine ⟨?_, ?_, ?_⟩
  · simp [infix_operand_type_rules, h]
  · intro hs; simp [infix_operand_type_rules, h, hs]
  · intro hw; simp [infix_operand_type_rules, h, hw]

/-- Witness for C5 at concrete integer types: `Integer(Signed, 8)` with
itself, against `Integer(Unsigned, 16)` (signedness wins over the width
difference), and against `Integer(Signed, 16)`. -/
theorem claim_c5_witness :
    (infix_operand_type_rules (.Integer .Signed 8) plainOp (.Integer .Signed 8) =
      .ok (.Integer .Signed 8)) ∧
    (infix_operand_type_rules (.Integer .Signed 8) plainOp (.Integer .Unsigned 16) =
      .error "Integers must have the same Signedness lhs is Signed, rhs is Unsigned ") ∧
    (infix_operand_type_rules (.Integer .Signed 8) plainOp (.Integer .Signed 16) =
      .error "Integers must have the same Bit width lhs is 8, rhs is 16 ") :=
  ⟨(claim_c5 plainOp .Signed .Unsigned 8 16 rfl).1,
   (claim_c5 plainOp .Signed .Unsigned 8 16 rfl).2.1 (by decide),
   (claim_c5 plainOp .Signed .Unsigned 8 16 rfl).2.2 (by decide)⟩

/-- C3 counterexample: the resolver is not symmetric as stated — at
`Integer(Signed, 8)` and `Integer(Unsigned, 8)` under a non-comparison
operator the two operand orders give different results (the
signedness-mismatch message interpolates the operands in call order). -/
theorem claim_c3_counterexample :
    infix_operand_type_rules (.Integer .Signed 8) plainOp (.Integer .Unsigned 8) ≠
      infix_operand_type_rules (.Integer .Unsigned 8) plainOp (.Integer .Signed 8) := by
  decide

/-- C3 (amended): for every two types and every operator,
`infix_operand_type_rules` is symmetric under operand swap up to the
error message — both orders agree on whether the result is `Ok` and on
the `Ok` value; exact equality fails only for the integer signedness- and
bit-width-mismatch errors, whose messages record the operands in call
order. -/
theorem claim_c3 (a b : Typ) (op : HirBinaryOp) :
    okPart (infix_operand_type_rules a op b) =
      okPart (infix_operand_type_rules b op a) := by
  by_cases h : op.is_comparator = true
  · simp [infix_operand_type_rules, h]
  · simp only [Bool.not_eq_true] at h
    cases a <;> cases b <;> simp [infix_operand_type_rules, h, okPart]
    rename_i s1 w1 s2 w2
    by_cases hs : s1 = s2
    · subst hs
      by_cases hw : w1 = w2
      · subst hw; simp
      · simp [hw, Ne.symm hw]
    · simp [hs, Ne.symm hs]

/-- C4: `check_param_argument` accepts a pair exactly when the argument
type is not a variable-sized array and either the parameter type is a
variable-sized array while the argument type is a fixed-size array (any
element type), or the two types are exactly equal; in particular
`Array(Fixed(4), Bool)` is accepted for a parameter of type
`Array(Variable, FieldElement)`, and a variable-sized array argument is
rejected even when the parameter type is the same variable-sized array
type. -/
theorem claim_c4 :
    (∀ (p : Param) (a : Typ), check_param_argument p a = none ↔
      (is_variable_sized_array a = false ∧
        ((is_variable_sized_array p.2 = true ∧ is_fixed_sized_array a = true) ∨
          p.2 = a))) ∧
    check_param_argument (0, .Array .Variable .FieldElement) (.Array (.Fixed 4) .Bool) =
      none ∧
    check_param_argument (0, .Array .Variable .FieldElement)
      (.Array .Variable .FieldElement) = some .variableSizedArgument := by
  refine ⟨?_, by decide, by decide⟩
  intro p a
  cases hva : is_variable_sized_array a with
  | true => simp [check_param_argument, hva]
  | false =>
    cases hvp : is_variable_sized_array p.2 with
    | true =>
      cases hfa : is_fixed_sized_array a with
      | true => simp [check_param_argument, hva, hvp, hfa]
      | false =>
        by_cases he : p.2 = a
        · simp [check_param_argument, hva, hvp, hfa, he]
        · simp [check_param_argument, hva, hvp, hfa, he]
    | false =>
      by_cases he : p.2 = a
      · simp [check_param_argument, hva, hvp, he]
      · simp [check_param_argument, hva, hvp, he]

end NoirTC


namespace NoirTC

/-- The sliding-window scan finds no mismatch exactly when every adjacent
pair of element types is equal. -/
theorem firstMismatch_eq_none_iff (l : List Typ) :
    firstMismatch l = none ↔ l.Chain' Eq := by
  induction l with
  | nil => simp [firstMismatch]
  | cons a l ih =>
    cases l with
    | nil => simp [firstMismatch]
    | cons b l' =>
      by_cases hab : a = b
      · subst hab
        simpa [firstMismatch] using ih
      · simp [firstMismatch, hab]

/-- When the sliding-window scan reports a pair, that pair is the first
unequal adjacent pair: the list splits around it and everything before it
is homogeneous. -/
theorem firstMismatch_eq_some :
    ∀ (l : List Typ) (x y : Typ), firstMismatch l = some (x, y) →
      ∃ pre suf, l = pre ++ x :: y :: suf ∧ x ≠ y ∧ (pre ++ [x]).Chain' Eq := by
  intro l
  induction l with
  | nil => intro x y h; simp [firstMismatch] at h
  | cons a l ih =>
    intro x y h
    cases l with
    | nil => simp [firstMismatch] at h
    | cons b l' =>
      by_cases hab : a = b
      · rw [firstMismatch, if_neg (by simp [hab])] at h
        obtain ⟨pre, suf, hl, hxy, hch⟩ := ih x y h
        refine ⟨a :: pre, suf, by simp [hl], hxy, ?_⟩
        rw [List.cons_append, List.chain'_cons']
        refine ⟨?_, hch⟩
        intro c hc
        cases pre with
        | nil =>
          simp at hc hl
          rw [hab, hl.1, hc]
        | cons p pre' =>
          simp at hc hl
          rw [hab, hl.1, hc]
      · rw [firstMismatch, if_pos hab] at h
        obtain ⟨hx, hy⟩ : a = x ∧ b = y := by
          constructor <;> [exact congrArg Prod.fst (Option.some.inj h);
            exact congrArg Prod.snd (Option.some.inj h)]
        subst hx; subst hy
        exact ⟨[], l', rfl, hab, by simp⟩

/-- C7: for every array literal with at least one checked element type —
one element of type `T` yields `Array(Fixed(1), T)` with no error; with
two or more elements the literal is accepted exactly when every adjacent
pair of element types is equal, yielding `Array(Fixed(n), first)`, and
otherwise the first unequal adjacent pair produces the
heterogeneous-array error naming both differing types. -/
theorem claim_c7 :
    (∀ t : Typ, arrayLiteralType [t] = .ok (.Array (.Fixed 1) t)) ∧
    (∀ (a b : Typ) (l : List Typ), (a :: b :: l).Chain' Eq →
      arrayLiteralType (a :: b :: l) = .ok (.Array (.Fixed (l.length + 2)) a)) ∧
    (∀ (a b : Typ) (l : List Typ), ¬ (a :: b :: l).Chain' Eq →
      ∃ x y pre suf, a :: b :: l = pre ++ x :: y :: suf ∧ x ≠ y ∧
        (pre ++ [x]).Chain' Eq ∧
        arrayLiteralType (a :: b :: l) = .error (.heterogeneousArray x y)) := by
  refine ⟨fun t => rfl, ?_, ?_⟩
  · intro a b l hch
    have hm : firstMismatch (a :: b :: l) = none := (firstMismatch_eq_none_iff _).2 hch
    simp [arrayLiteralType, hm]
  · intro a b l hch
    have hm : firstMismatch (a :: b :: l) ≠ none :=
      fun h => hch ((firstMismatch_eq_none_iff _).1 h)
    obtain ⟨⟨x, y⟩, hsome⟩ := Option.ne_none_iff_exists'.1 hm
    obtain ⟨pre, suf, hl, hxy, hch2⟩ := firstMismatch_eq_some _ _ _ hsome
    exact ⟨x, y, pre, suf, hl, hxy, hch2, by simp [arrayLiteralType, hsome]⟩

/-- C10: on an array literal with zero elements the checker hits the
`arr_types[0]` read of an empty vector and fails with the bounds error,
before any homogeneity check runs; with at least one element that bounds
failure cannot occur; at the walker level, an empty `Array` literal makes
`type_check_expression` return the bounds failure with no type
recorded. -/
theorem claim_c10 :
    arrayLiteralType [] = .error .indexOutOfBounds ∧
    (∀ (t : Typ) (ts : List Typ),
      arrayLiteralType (t :: ts) ≠ .error .indexOutOfBounds) ∧
    (∀ (n : Nat) (I : DefInterner) (expr_id : ExprId) (arr : HirArrayLiteral),
      I.exprs expr_id = .Literal (.Array arr) → arr.contents = [] →
      type_check_expression (n + 1) I expr_id = (I, some .indexOutOfBounds)) := by
  refine ⟨rfl, ?_, ?_⟩
  · intro t ts
    cases ts with
    | nil => simp [arrayLiteralType]
    | cons u us =>
      simp only [arrayLiteralType, List.get?]
      cases hm : firstMismatch (t :: u :: us) with
      | none => simp [hm]
      | some p => cases p; simp [hm]
  · intro n I eid arr he hc
    simp [type_check_expression, he, hc, check_expr_list, arrayLiteralType]

end NoirTC


namespace NoirTC

mutual

/-- Over-approximation of the expression handles the walker can push a
type for when started on `e`, in push order, computed from the node
shape alone (`exprs`, `stmts`): each arm lists the handles of the
sub-runs it performs followed by the root's own handle.  Fuel-indexed
like the walker. -/
def reach : Nat → (ExprId → HirExpression) → (StmtId → HirStatement) → ExprId → List ExprId
  | 0, _, _, _ => []
  | Nat.succ n, f, g, e =>
    match f e with
    | .Ident _ => [e]
    | .Literal (.Array arr) => reachList n f g arr.contents ++ [e]
    | .Literal _ => [e]
    | .Infix ie => reach n f g ie.lhs ++ reach n f g ie.rhs ++ [e]
    | .Index _ => [e]
    | .Call ce => reachList n f g ce.arguments ++ [e]
    | .Cast ce => reach n f g ce.lhs ++ [e]
    | .For fe =>
        reach n f g fe.start_range ++ reach n f g fe.end_range ++
          reachStmt n f g fe.block ++ [e]
    | .Prefix => [e]
    | .Predicate => [e]
    | .If => [e]

/-- `reach` over a list of expressions, in order. -/
def reachList : Nat → (ExprId → HirExpression) → (StmtId → HirStatement) →
    List ExprId → List ExprId
  | _, _, _, [] => []
  | 0, _, _, _ :: _ => []
  | Nat.succ n, f, g, e :: rest => reach n f g e ++ reachList n f g rest

/-- `reach` through a statement: a block reaches through its statements,
an expression statement through its expression. -/
def reachStmt : Nat → (ExprId → HirExpression) → (StmtId → HirStatement) →
    StmtId → List ExprId
  | 0, _, _, _ => []
  | Nat.succ n, f, g, s =>
    match g s with
    | .Block b => reachStmtList n f g b.statements
    | .Expression e => reach n f g e
    | .Other => []

/-- `reachStmt` over a list of statements, in order. -/
def reachStmtList : Nat → (ExprId → HirExpression) → (StmtId → HirStatement) →
    List StmtId → List ExprId
  | _, _, _, [] => []
  | 0, _, _, _ :: _ => []
  | Nat.succ n, f, g, s :: rest => reachStmt n f g s ++ reachStmtList n f g rest

end

/-- The expression handles of a list of type-table entries, in order
(identifier entries dropped). -/
def exprKeys (entries : List (TableId × Typ)) : List ExprId :=
  entries.filterMap (fun p => match p.1 with | .expr e => some e | .ident _ => none)

/-- Whether the table fragment holds an entry for expression handle
`e`. -/
def hasExprType (entries : List (TableId × Typ)) (e : ExprId) : Bool :=
  entries.any (fun p => p.1 == TableId.expr e)

/-- The direct sub-expressions an arm of `type_check_expression`
recursively checks before its own push: array elements, both infix
operands, call arguments, the cast operand and the two loop bounds.  The
`Index` arm checks none — the source never visits `index_expr`'s index
operand — which is exactly the gap the C9 counterexample exhibits. -/
def checkedSubExprs : HirExpression → List ExprId
  | .Ident _ => []
  | .Literal (.Array arr) => arr.contents
  | .Literal _ => []
  | .Infix ie => [ie.lhs, ie.rhs]
  | .Index _ => []
  | .Call ce => ce.arguments
  | .Cast ce => [ce.lhs]
  | .For fe => [fe.start_range, fe.end_range]
  | .Prefix => []
  | .Predicate => []
  | .If => []

/-- `pushesOrdered f sofar Δ` states that, walking the pushes `Δ` in
order, every push at an expression handle finds all of that node's
checked sub-expressions already typed in the table built so far
(`sofar` plus the earlier entries of `Δ`). -/
def pushesOrdered (f : ExprId → HirExpression) :
    List (TableId × Typ) → List (TableId × Typ) → Prop
  | _, [] => True
  | sofar, entry :: rest =>
      (∀ e0, entry.1 = TableId.expr e0 →
        ∀ c ∈ checkedSubExprs (f e0), hasExprType sofar c = true) ∧
      pushesOrdered f (sofar ++ [entry]) rest

/-- `exprKeys` distributes over append. -/
theorem exprKeys_append (Δ1 Δ2 : List (TableId × Typ)) :
    exprKeys (Δ1 ++ Δ2) = exprKeys Δ1 ++ exprKeys Δ2 := by
  simp [exprKeys]

/-- `exprKeys` of one expression entry. -/
theorem exprKeys_expr_single (e : ExprId) (t : Typ) :
    exprKeys [(TableId.expr e, t)] = [e] := rfl

/-- `exprKeys` of one identifier entry. -/
theorem exprKeys_ident_single (i : IdentId) (t : Typ) :
    exprKeys [(TableId.ident i, t)] = [] := rfl

/-- An entry stays visible when the table grows on the right. -/
theorem hasExprType_append_left {s : List (TableId × Typ)} {c : ExprId}
    (h : hasExprType s c = true) (s' : List (TableId × Typ)) :
    hasExprType (s ++ s') c = true := by
  simp [hasExprType, List.any_append] at *
  exact Or.inl h

/-- An entry stays visible when the table grows on the left. -/
theorem hasExprType_append_right (s : List (TableId × Typ))
    {s' : List (TableId × Typ)} {c : ExprId} (h : hasExprType s' c = true) :
    hasExprType (s ++ s') c = true := by
  simp [hasExprType, List.any_append] at *
  exact Or.inr h

/-- A literal member of the table is visible. -/
theorem hasExprType_of_mem {s : List (TableId × Typ)} {c : ExprId} {t : Typ}
    (h : (TableId.expr c, t) ∈ s) : hasExprType s c = true := by
  simp [hasExprType, List.any_eq_true]
  exact ⟨t, h⟩

/-- Ordered push sequences compose: run `Δ1` from `s`, then `Δ2` from
`s ++ Δ1`. -/
theorem pushesOrdered_append {f : ExprId → HirExpression}
    {s Δ1 Δ2 : List (TableId × Typ)} (h1 : pushesOrdered f s Δ1)
    (h2 : pushesOrdered f (s ++ Δ1) Δ2) : pushesOrdered f s (Δ1 ++ Δ2) := by
  induction Δ1 generalizing s with
  | nil => simpa using h2
  | cons a Δ1 ih =>
    obtain ⟨ha, h1'⟩ := h1
    have hl : s ++ a :: Δ1 = (s ++ [a]) ++ Δ1 := by simp
    rw [hl] at h2
    exact ⟨ha, ih h1' h2⟩

/-- An identifier push is ordered trivially (it is not an expression
push). -/
theorem pushesOrdered_ident (f : ExprId → HirExpression)
    (s : List (TableId × Typ)) (i : IdentId) (t : Typ) :
    pushesOrdered f s [(TableId.ident i, t)] := by
  refine ⟨?_, trivial⟩
  intro e0 h
  cases h

/-- A single expression push is ordered when its checked sub-expressions
are already in the table. -/
theorem pushesOrdered_expr {f : ExprId → HirExpression}
    {s : List (TableId × Typ)} {e0 : ExprId} (t : Typ)
    (h : ∀ c ∈ checkedSubExprs (f e0), hasExprType s c = true) :
    pushesOrdered f s [(TableId.expr e0, t)] := by
  refine ⟨?_, trivial⟩
  intro e1 he
  cases he
  exact h

end NoirTC

namespace NoirTC

/-- The structural invariants of one walker run, proved for the four
mutually recursive functions at once by induction on fuel: the type
table only grows, by a suffix `Δ` of new entries, and no other interner
field changes; the expression handles pushed, in order, form a sublist
of the syntactic `reach` list; every push happens only after the pushed
node's checked sub-expressions are typed (`pushesOrdered`); a successful
expression run pushes its own root last, and a successful list run
leaves every listed expression typed. -/
theorem walker_invariants : ∀ n : Nat,
    (∀ I e, ∃ Δ,
      (type_check_expression n I e).1 = { I with idTypes := I.idTypes ++ Δ } ∧
      (exprKeys Δ).Sublist (reach n I.exprs I.stmts e) ∧
      pushesOrdered I.exprs I.idTypes Δ ∧
      ((type_check_expression n I e).2 = none →
        ∃ Δ0 t, Δ = Δ0 ++ [(TableId.expr e, t)])) ∧
    (∀ I es, ∃ Δ,
      (check_expr_list n I es).1 = { I with idTypes := I.idTypes ++ Δ } ∧
      (exprKeys Δ).Sublist (reachList n I.exprs I.stmts es) ∧
      pushesOrdered I.exprs I.idTypes Δ ∧
      (∀ ts, (check_expr_list n I es).2 = .ok ts →
        ∀ c ∈ es, hasExprType (check_expr_list n I es).1.idTypes c = true)) ∧
    (∀ I s, ∃ Δ,
      (stmt_type_check n I s).1 = { I with idTypes := I.idTypes ++ Δ } ∧
      (exprKeys Δ).Sublist (reachStmt n I.exprs I.stmts s) ∧
      pushesOrdered I.exprs I.idTypes Δ) ∧
    (∀ I ss, ∃ Δ,
      (check_stmt_list n I ss).1 = { I with idTypes := I.idTypes ++ Δ } ∧
      (exprKeys Δ).Sublist (reachStmtList n I.exprs I.stmts ss) ∧
      pushesOrdered I.exprs I.idTypes Δ) := by
  intro n
  induction n with
  | zero =>
    refine ⟨?_, ?_, ?_, ?_⟩
    · intro I e
      exact ⟨[], by simp [type_check_expression], by simp [reach, exprKeys],
        by simp [pushesOrdered], by simp [type_check_expression]⟩
    · intro I es
      cases es with
      | nil =>
        refine ⟨[], by simp [check_expr_list], by simp [reachList, exprKeys],
          by simp [pushesOrdered], ?_⟩
        intro ts _ c hc
        simp at hc
      | cons e rest =>
        exact ⟨[], by simp [check_expr_list], by simp [reachList, exprKeys],
          by simp [pushesOrdered], by simp [check_expr_list]⟩
    · intro I s
      exact ⟨[], by simp [stmt_type_check], by simp [reachStmt, exprKeys],
        by simp [pushesOrdered]⟩
    · intro I ss
      cases ss with
      | nil =>
        exact ⟨[], by simp [check_stmt_list], by simp [reachStmtList, exprKeys],
          by simp [pushesOrdered]⟩
      | cons s rest =>
        exact ⟨[], by simp [check_stmt_list], by simp [reachStmtList, exprKeys],
          by simp [pushesOrdered]⟩
  | succ n ih =>
    obtain ⟨ihe, ihl, ihs, ihsl⟩ := ih
    refine ⟨?_, ?_, ?_, ?_⟩
    · -- type_check_expression
      intro I e
      cases hek : I.exprs e with
      | Ident iid =>
        cases hd : I.ident_defs iid with
        | none =>
          exact ⟨[], by simp [type_check_expression, hek, hd],
            by simp [reach, hek, exprKeys], by simp [pushesOrdered],
            by simp [type_check_expression, hek, hd]⟩
        | some d =>
          cases htd : I.id_type (.ident d) with
          | none =>
            exact ⟨[], by simp [type_check_expression, hek, hd, htd],
              by simp [reach, hek, exprKeys], by simp [pushesOrdered],
              by simp [type_check_expression, hek, hd, htd]⟩
          | some t =>
            refine ⟨[(TableId.expr e, t)], ?_, ?_, ?_, ?_⟩
            · simp [type_check_expression, hek, hd, htd, DefInterner.push_expr_type]
            · rw [exprKeys_expr_single]
              simp only [reach, hek]
              exact List.Sublist.refl _
            · exact pushesOrdered_expr t (by simp [checkedSubExprs, hek])
            · intro _
              exact ⟨[], t, by simp⟩
      | Literal lit =>
        cases lit with
        | Bool b =>
          exact ⟨[], by simp [type_check_expression, hek],
            by simp [reach, hek, exprKeys], by simp [pushesOrdered],
            by simp [type_check_expression, hek]⟩
        | Str sl =>
          exact ⟨[], by simp [type_check_expression, hek],
            by simp [reach, hek, exprKeys], by simp [pushesOrdered],
            by simp [type_check_expression, hek]⟩
        | Integer x =>
          refine ⟨[(TableId.expr e, .Constant)], ?_, ?_, ?_, ?_⟩
          · simp [type_check_expression, hek, DefInterner.push_expr_type]
          · rw [exprKeys_expr_single]
            simp only [reach, hek]
            exact List.Sublist.refl _
          · exact pushesOrdered_expr .Constant (by simp [checkedSubExprs, hek])
          · intro _
            exact ⟨[], .Constant, by simp⟩
        | Array arr =>
          rcases h1 : check_expr_list n I arr.contents with ⟨I1, r1⟩
          obtain ⟨Δ1, hI1, hsub1, hord1, hok1⟩ := ihl I arr.contents
          rw [h1] at hI1 hok1
          simp only at hI1 hok1
          cases r1 with
          | error er =>
            refine ⟨Δ1, ?_, ?_, hord1, ?_⟩
            · simp only [type_check_expression, hek, h1]
              exact hI1
            · refine hsub1.trans ?_
              simp only [reach, hek]
              exact List.sublist_append_left _ _
            · intro hts
              simp only [type_check_expression, hek, h1] at hts
              simp at hts
          | ok arr_types =>
            cases hat : arrayLiteralType arr_types with
            | error er =>
              refine ⟨Δ1, ?_, ?_, hord1, ?_⟩
              · simp only [type_check_expression, hek, h1, hat]
                exact hI1
              · refine hsub1.trans ?_
                simp only [reach, hek]
                exact List.sublist_append_left _ _
              · intro hts
                simp only [type_check_expression, hek, h1, hat] at hts
                simp at hts
            | ok arr_type =>
              refine ⟨Δ1 ++ [(TableId.expr e, arr_type)], ?_, ?_, ?_, ?_⟩
              · simp only [type_check_expression, hek, h1, hat]
                rw [hI1]
                simp [DefInterner.push_expr_type, List.append_assoc]
              · rw [exprKeys_append, exprKeys_expr_single]
                simp only [reach, hek]
                exact hsub1.append (List.Sublist.refl _)
              · refine pushesOrdered_append hord1 (pushesOrdered_expr arr_type ?_)
                intro c hc
                simp only [checkedSubExprs, hek] at hc
                have hht := hok1 arr_types rfl c hc
                rw [hI1] at hht
                exact hht
              · intro _
                exact ⟨Δ1, arr_type, rfl⟩
      | Infix ie =>
        rcases h1 : type_check_expression n I ie.lhs with ⟨I1, r1⟩
        obtain ⟨Δ1, hI1, hsub1, hord1, hlast1⟩ := ihe I ie.lhs
        rw [h1] at hI1 hlast1
        simp only at hI1 hlast1
        cases r1 with
        | some er =>
          refine ⟨Δ1, ?_, ?_, hord1, ?_⟩
          · simp only [type_check_expression, hek, h1]
            exact hI1
          · refine hsub1.trans ?_
            simp only [reach, hek]
            exact (List.sublist_append_left _ _).trans (List.sublist_append_left _ _)
          · intro hts
            simp only [type_check_expression, hek, h1] at hts
            simp at hts
        | none =>
          obtain ⟨Δ0l, tl, hΔ1⟩ := hlast1 rfl
          cases ht1 : I1.id_type (.expr ie.lhs) with
          | none =>
            refine ⟨Δ1, ?_, ?_, hord1, ?_⟩
            · simp only [type_check_expression, hek, h1, ht1]
              exact hI1
            · refine hsub1.trans ?_
              simp only [reach, hek]
              exact (List.sublist_append_left _ _).trans (List.sublist_append_left _ _)
            · intro hts
              simp only [type_check_expression, hek, h1, ht1] at hts
              simp at hts
          | some lhs_type =>
            rcases h2 : type_check_expression n I1 ie.rhs with ⟨I2, r2⟩
            obtain ⟨Δ2, hI2, hsub2, hord2, hlast2⟩ := ihe I1 ie.rhs
            rw [h2] at hI2 hlast2
            simp only at hI2 hlast2
            rw [hI1] at hsub2 hord2
            have hI2' : I2 = { I with idTypes := I.idTypes ++ (Δ1 ++ Δ2) } := by
              rw [hI2, hI1]
              simp [List.append_assoc]
            cases r2 with
            | some er =>
              refine ⟨Δ1 ++ Δ2, ?_, ?_, pushesOrdered_append hord1 hord2, ?_⟩
              · simp only [type_check_expression, hek, h1, ht1, h2]
                exact hI2'
              · rw [exprKeys_append]
                simp only [reach, hek]
                exact (hsub1.append hsub2).trans (List.sublist_append_left _ _)
              · intro hts
                simp only [type_check_expression, hek, h1, ht1, h2] at hts
                simp at hts
            | none =>
              obtain ⟨Δ0r, tr, hΔ2⟩ := hlast2 rfl
              cases ht2 : I2.id_type (.expr ie.rhs) with
              | none =>
                refine ⟨Δ1 ++ Δ2, ?_, ?_, pushesOrdered_append hord1 hord2, ?_⟩
                · simp only [type_check_expression, hek, h1, ht1, h2, ht2]
                  exact hI2'
                · rw [exprKeys_append]
                  simp only [reach, hek]
                  exact (hsub1.append hsub2).trans (List.sublist_append_left _ _)
                · intro hts
                  simp only [type_check_expression, hek, h1, ht1, h2, ht2] at hts
                  simp at hts
              | some rhs_type =>
                cases hrr : infix_operand_type_rules lhs_type ie.operator rhs_type with
                | error msg =>
                  refine ⟨Δ1 ++ Δ2, ?_, ?_, pushesOrdered_append hord1 hord2, ?_⟩
                  · simp only [type_check_expression, hek, h1, ht1, h2, ht2, hrr]
                    exact hI2'
                  · rw [exprKeys_append]
                    simp only [reach, hek]
                    exact (hsub1.append hsub2).trans (List.sublist_append_left _ _)
                  · intro hts
                    simp only [type_check_expression, hek, h1, ht1, h2, ht2, hrr] at hts
                    simp at hts
                | ok result_type =>
                  refine ⟨Δ1 ++ Δ2 ++ [(TableId.expr e, result_type)], ?_, ?_, ?_, ?_⟩
                  · simp only [type_check_expression, hek, h1, ht1, h2, ht2, hrr]
                    rw [hI2']
                    simp [DefInterner.push_expr_type, List.append_assoc]
                  · rw [exprKeys_append, exprKeys_append, exprKeys_expr_single]
                    simp only [reach, hek]
                    exact (hsub1.append hsub2).append (List.Sublist.refl _)
                  · refine pushesOrdered_append (pushesOrdered_append hord1 hord2)
                      (pushesOrdered_expr result_type ?_)
                    intro c hc
                    simp only [checkedSubExprs, hek, List.mem_cons,
                      List.not_mem_nil, or_false] at hc
                    rcases hc with hc | hc
                    · subst hc
                      exact hasExprType_append_right I.idTypes
                        (hasExprType_append_left
                          (@hasExprType_of_mem Δ1 _ tl (by rw [hΔ1]; simp)) Δ2)
                    · subst hc
                      exact hasExprType_append_right I.idTypes
                        (hasExprType_append_right Δ1
                          (@hasExprType_of_mem Δ2 _ tr (by rw [hΔ2]; simp)))
                  · intro _
                    exact ⟨Δ1 ++ Δ2, result_type, rfl⟩
      | Index ix =>
        cases hd : I.ident_defs ix.collection_name with
        | none =>
          exact ⟨[], by simp [type_check_expression, hek, hd],
            by simp [reach, hek, exprKeys], by simp [pushesOrdered],
            by simp [type_check_expression, hek, hd]⟩
        | some d =>
          cases htd : I.id_type (.ident d) with
          | none =>
            exact ⟨[], by simp [type_check_expression, hek, hd, htd],
              by simp [reach, hek, exprKeys], by simp [pushesOrdered],
              by simp [type_check_expression, hek, hd, htd]⟩
          | some ct =>
            cases ct with
            | Array sz bt =>
              refine ⟨[(TableId.expr e, bt)], ?_, ?_, ?_, ?_⟩
              · simp [type_check_expression, hek, hd, htd, DefInterner.push_expr_type]
              · rw [exprKeys_expr_single]
                simp only [reach, hek]
                exact List.Sublist.refl _
              · exact pushesOrdered_expr bt (by simp [checkedSubExprs, hek])
              · intro _
                exact ⟨[], bt, by simp⟩
            | FieldElement =>
              exact ⟨[], by simp [type_check_expression, hek, hd, htd],
                by simp [reach, hek, exprKeys], by simp [pushesOrdered],
                by simp [type_check_expression, hek, hd, htd]⟩
            | Integer s1 w1 =>
              exact ⟨[], by simp [type_check_expression, hek, hd, htd],
                by simp [reach, hek, exprKeys], by simp [pushesOrdered],
                by simp [type_check_expression, hek, hd, htd]⟩
            | Constant =>
              exact ⟨[], by simp [type_check_expression, hek, hd, htd],
                by simp [reach, hek, exprKeys], by simp [pushesOrdered],
                by simp [type_check_expression, hek, hd, htd]⟩
            | Witness =>
              exact ⟨[], by simp [type_check_expression, hek, hd, htd],
                by simp [reach, hek, exprKeys], by simp [pushesOrdered],
                by simp [type_check_expression, hek, hd, htd]⟩
            | Public =>
              exact ⟨[], by simp [type_check_expression, hek, hd, htd],
                by simp [reach, hek, exprKeys], by simp [pushesOrdered],
                by simp [type_check_expression, hek, hd, htd]⟩
            | Bool =>
              exact ⟨[], by simp [type_check_expression, hek, hd, htd],
                by simp [reach, hek, exprKeys], by simp [pushesOrdered],
                by simp [type_check_expression, hek, hd, htd]⟩
            | Unit =>
              exact ⟨[], by simp [type_check_expression, hek, hd, htd],
                by simp [reach, hek, exprKeys], by simp [pushesOrdered],
                by simp [type_check_expression, hek, hd, htd]⟩
            | Unknown =>
              exact ⟨[], by simp [type_check_expression, hek, hd, htd],
                by simp [reach, hek, exprKeys], by simp [pushesOrdered],
                by simp [type_check_expression, hek, hd, htd]⟩
            | Unspecified =>
              exact ⟨[], by simp [type_check_expression, hek, hd, htd],
                by simp [reach, hek, exprKeys], by simp [pushesOrdered],
                by simp [type_check_expression, hek, hd, htd]⟩
            | Error =>
              exact ⟨[], by simp [type_check_expression, hek, hd, htd],
                by simp [reach, hek, exprKeys], by simp [pushesOrdered],
                by simp [type_check_expression, hek, hd, htd]⟩
      | Call ce =>
        by_cases hlen : (I.funcs ce.func_id).parameters.length = ce.arguments.length
        case neg =>
          exact ⟨[], by simp [type_check_expression, hek, hlen],
            by simp [reach, hek, exprKeys], by simp [pushesOrdered],
            by simp [type_check_expression, hek, hlen]⟩
        case pos =>
          rcases h1 : check_expr_list n I ce.arguments with ⟨I1, r1⟩
          obtain ⟨Δ1, hI1, hsub1, hord1, hok1⟩ := ihl I ce.arguments
          rw [h1] at hI1 hok1
          simp only at hI1 hok1
          cases r1 with
          | error er =>
            refine ⟨Δ1, ?_, ?_, hord1, ?_⟩
            · simp only [type_check_expression, hek]
              rw [if_neg (by simp [hlen])]
              simp only [h1]
              exact hI1
            · refine hsub1.trans ?_
              simp only [reach, hek]
              exact List.sublist_append_left _ _
            · intro hts
              simp only [type_check_expression, hek] at hts
              rw [if_neg (by simp [hlen])] at hts
              simp only [h1] at hts
              simp at hts
          | ok arg_types =>
            cases hcp : check_params ((I.funcs ce.func_id).parameters.zip arg_types) with
            | some er =>
              refine ⟨Δ1, ?_, ?_, hord1, ?_⟩
              · simp only [type_check_expression, hek]
                rw [if_neg (by simp [hlen])]
                simp only [h1, hcp]
                exact hI1
              · refine hsub1.trans ?_
                simp only [reach, hek]
                exact List.sublist_append_left _ _
              · intro hts
                simp only [type_check_expression, hek] at hts
                rw [if_neg (by simp [hlen])] at hts
                simp only [h1, hcp] at hts
                simp at hts
            | none =>
              refine ⟨Δ1 ++ [(TableId.expr e, (I.funcs ce.func_id).return_type)],
                ?_, ?_, ?_, ?_⟩
              · simp only [type_check_expression, hek]
                rw [if_neg (by simp [hlen])]
                simp only [h1, hcp]
                rw [hI1]
                simp [DefInterner.push_expr_type, List.append_assoc]
              · rw [exprKeys_append, exprKeys_expr_single]
                simp only [reach, hek]
                exact hsub1.append (List.Sublist.refl _)
              · refine pushesOrdered_append hord1
                  (pushesOrdered_expr (I.funcs ce.func_id).return_type ?_)
                intro c hc
                simp only [checkedSubExprs, hek] at hc
                have hht := hok1 arg_types rfl c hc
                rw [hI1] at hht
                exact hht
              · intro _
                exact ⟨Δ1, (I.funcs ce.func_id).return_type, rfl⟩
      | Cast cc =>
        rcases h1 : type_check_expression n I cc.lhs with ⟨I1, r1⟩
        obtain ⟨Δ1, hI1, hsub1, hord1, hlast1⟩ := ihe I cc.lhs
        rw [h1] at hI1 hlast1
        simp only at hI1 hlast1
        cases r1 with
        | some er =>
          refine ⟨Δ1, ?_, ?_, hord1, ?_⟩
          · simp only [type_check_expression, hek, h1]
            exact hI1
          · refine hsub1.trans ?_
            simp only [reach, hek]
            exact List.sublist_append_left _ _
          · intro hts
            simp only [type_check_expression, hek, h1] at hts
            simp at hts
        | none =>
          obtain ⟨Δ0l, tl, hΔ1⟩ := hlast1 rfl
          cases ht1 : I1.id_type (.expr cc.lhs) with
          | none =>
            refine ⟨Δ1, ?_, ?_, hord1, ?_⟩
            · simp only [type_check_expression, hek, h1, ht1]
              exact hI1
            · refine hsub1.trans ?_
              simp only [reach, hek]
              exact List.sublist_append_left _ _
            · intro hts
              simp only [type_check_expression, hek, h1, ht1] at hts
              simp at hts
          | some tlh =>
            refine ⟨Δ1 ++ [(TableId.expr e, cc.typ)], ?_, ?_, ?_, ?_⟩
            · simp only [type_check_expression, hek, h1, ht1]
              rw [hI1]
              simp [DefInterner.push_expr_type, List.append_assoc]
            · rw [exprKeys_append, exprKeys_expr_single]
              simp only [reach, hek]
              exact hsub1.append (List.Sublist.refl _)
            · refine pushesOrdered_append hord1 (pushesOrdered_expr cc.typ ?_)
              intro c hc
              simp only [checkedSubExprs, hek, List.mem_singleton] at hc
              subst hc
              exact hasExprType_append_right I.idTypes
                (@hasExprType_of_mem Δ1 _ tl (by rw [hΔ1]; simp))
            · intro _
              exact ⟨Δ1, cc.typ, rfl⟩
      | For fe =>
        rcases h1 : type_check_expression n I fe.start_range with ⟨I1, r1⟩
        obtain ⟨Δ1, hI1, hsub1, hord1, hlast1⟩ := ihe I fe.start_range
        rw [h1] at hI1 hlast1
        simp only at hI1 hlast1
        cases r1 with
        | some er =>
          refine ⟨Δ1, ?_, ?_, hord1, ?_⟩
          · simp only [type_check_expression, hek, h1]
            exact hI1
          · refine hsub1.trans ?_
            simp only [reach, hek]
            exact ((List.sublist_append_left _ _).trans
              (List.sublist_append_left _ _)).trans (List.sublist_append_left _ _)
          · intro hts
            simp only [type_check_expression, hek, h1] at hts
            simp at hts
        | none =>
          obtain ⟨Δ0s, tstart, hΔ1⟩ := hlast1 rfl
          rcases h2 : type_check_expression n I1 fe.end_range with ⟨I2, r2⟩
          obtain ⟨Δ2, hI2, hsub2, hord2, hlast2⟩ := ihe I1 fe.end_range
          rw [h2] at hI2 hlast2
          simp only at hI2 hlast2
          rw [hI1] at hsub2 hord2
          have hI2' : I2 = { I with idTypes := I.idTypes ++ (Δ1 ++ Δ2) } := by
            rw [hI2, hI1]
            simp [List.append_assoc]
          cases r2 with
          | some er =>
            refine ⟨Δ1 ++ Δ2, ?_, ?_, pushesOrdered_append hord1 hord2, ?_⟩
            · simp only [type_check_expression, hek, h1, h2]
              exact hI2'
            · rw [exprKeys_append]
              simp only [reach, hek]
              exact ((hsub1.append hsub2).trans
                (List.sublist_append_left _ _)).trans (List.sublist_append_left _ _)
            · intro hts
              simp only [type_check_expression, hek, h1, h2] at hts
              simp at hts
          | none =>
            obtain ⟨Δ0e, tend, hΔ2⟩ := hlast2 rfl
            cases hts0 : I2.id_type (.expr fe.start_range) with
            | none =>
              refine ⟨Δ1 ++ Δ2, ?_, ?_, pushesOrdered_append hord1 hord2, ?_⟩
              · simp only [type_check_expression, hek, h1, h2, hts0]
                exact hI2'
              · rw [exprKeys_append]
                simp only [reach, hek]
                exact ((hsub1.append hsub2).trans
                  (List.sublist_append_left _ _)).trans (List.sublist_append_left _ _)
              · intro hts
                simp only [type_check_expression, hek, h1, h2, hts0] at hts
                simp at hts
            | some start_type =>
              cases hte0 : I2.id_type (.expr fe.end_range) with
              | none =>
                refine ⟨Δ1 ++ Δ2, ?_, ?_, pushesOrdered_append hord1 hord2, ?_⟩
                · simp only [type_check_expression, hek, h1, h2, hts0, hte0]
                  exact hI2'
                · rw [exprKeys_append]
                  simp only [reach, hek]
                  exact ((hsub1.append hsub2).trans
                    (List.sublist_append_left _ _)).trans (List.sublist_append_left _ _)
                · intro hts
                  simp only [type_check_expression, hek, h1, h2, hts0, hte0] at hts
                  simp at hts
              | some end_type =>
                by_cases hsc : start_type = Typ.Constant
                case neg =>
                  refine ⟨Δ1 ++ Δ2, ?_, ?_, pushesOrdered_append hord1 hord2, ?_⟩
                  · simp only [type_check_expression, hek, h1, h2, hts0, hte0]
                    rw [if_pos (by simp [hsc])]
                    exact hI2'
                  · rw [exprKeys_append]
                    simp only [reach, hek]
                    exact ((hsub1.append hsub2).trans
                      (List.sublist_append_left _ _)).trans (List.sublist_append_left _ _)
                  · intro hts
                    simp only [type_check_expression, hek, h1, h2, hts0, hte0] at hts
                    rw [if_pos (by simp [hsc])] at hts
                    simp at hts
                case pos =>
                  subst hsc
                  by_cases hec : end_type = Typ.Constant
                  case neg =>
                    refine ⟨Δ1 ++ Δ2, ?_, ?_, pushesOrdered_append hord1 hord2, ?_⟩
                    · simp only [type_check_expression, hek, h1, h2, hts0, hte0]
                      rw [if_neg (by simp), if_pos (by simp [hec])]
                      exact hI2'
                    · rw [exprKeys_append]
                      simp only [reach, hek]
                      exact ((hsub1.append hsub2).trans
                        (List.sublist_append_left _ _)).trans (List.sublist_append_left _ _)
                    · intro hts
                      simp only [type_check_expression, hek, h1, h2, hts0, hte0] at hts
                      rw [if_neg (by simp), if_pos (by simp [hec])] at hts
                      simp at hts
                  case pos =>
                    subst hec
                    rcases h4 : stmt_type_check n
                      (I2.push_ident_type fe.identifier Typ.Constant) fe.block with ⟨I4, r4⟩
                    obtain ⟨Δ4, hI4, hsub4, hord4⟩ :=
                      ihs (I2.push_ident_type fe.identifier Typ.Constant) fe.block
                    rw [h4] at hI4
                    simp only at hI4
                    have hI3 : I2.push_ident_type fe.identifier Typ.Constant =
                        { I with idTypes := I.idTypes ++
                          (Δ1 ++ Δ2 ++ [(TableId.ident fe.identifier, Typ.Constant)]) } := by
                      rw [hI2']
                      simp [DefInterner.push_ident_type, List.append_assoc]
                    rw [hI3] at hsub4 hord4
                    have hI4' : I4 = { I with idTypes := I.idTypes ++
                        (Δ1 ++ Δ2 ++ [(TableId.ident fe.identifier, Typ.Constant)] ++ Δ4) } := by
                      rw [hI4, hI3]
                      simp [List.append_assoc]
                    have hordAll : pushesOrdered I.exprs I.idTypes
                        (Δ1 ++ Δ2 ++ [(TableId.ident fe.identifier, Typ.Constant)] ++ Δ4) :=
                      pushesOrdered_append
                        (pushesOrdered_append (pushesOrdered_append hord1 hord2)
                          (pushesOrdered_ident _ _ _ _))
                        hord4
                    have hkeys : exprKeys
                        (Δ1 ++ Δ2 ++ [(TableId.ident fe.identifier, Typ.Constant)] ++ Δ4) =
                        exprKeys Δ1 ++ exprKeys Δ2 ++ exprKeys Δ4 := by
                      rw [exprKeys_append, exprKeys_append, exprKeys_append,
                        exprKeys_ident_single]
                      simp
                    cases r4 with
                    | some er =>
                      refine ⟨Δ1 ++ Δ2 ++ [(TableId.ident fe.identifier, Typ.Constant)] ++ Δ4,
                        ?_, ?_, hordAll, ?_⟩
                      · simp only [type_check_expression, hek, h1, h2, hts0, hte0]
                        rw [if_neg (by simp), if_neg (by simp), if_neg (by simp)]
                        simp only [h4]
                        exact hI4'
                      · rw [hkeys]
                        simp only [reach, hek]
                        exact ((hsub1.append hsub2).append hsub4).trans
                          (List.sublist_append_left _ _)
                      · intro hts
                        simp only [type_check_expression, hek, h1, h2, hts0, hte0] at hts
                        rw [if_neg (by simp), if_neg (by simp), if_neg (by simp)] at hts
                        simp only [h4] at hts
                        simp at hts
                    | none =>
                      cases hex : extract_last_type_from_block I4 fe.block with
                      | error er =>
                        refine ⟨Δ1 ++ Δ2 ++
                          [(TableId.ident fe.identifier, Typ.Constant)] ++ Δ4,
                          ?_, ?_, hordAll, ?_⟩
                        · simp only [type_check_expression, hek, h1, h2, hts0, hte0]
                          rw [if_neg (by simp), if_neg (by simp), if_neg (by simp)]
                          simp only [h4, hex]
                          exact hI4'
                        · rw [hkeys]
                          simp only [reach, hek]
                          exact ((hsub1.append hsub2).append hsub4).trans
                            (List.sublist_append_left _ _)
                        · intro hts
                          simp only [type_check_expression, hek, h1, h2, hts0, hte0] at hts
                          rw [if_neg (by simp), if_neg (by simp), if_neg (by simp)] at hts
                          simp only [h4, hex] at hts
                          simp at hts
                      | ok last_type =>
                        refine ⟨Δ1 ++ Δ2 ++
                          [(TableId.ident fe.identifier, Typ.Constant)] ++ Δ4 ++
                          [(TableId.expr e, .Array .Variable last_type)],
                          ?_, ?_, ?_, ?_⟩
                        · simp only [type_check_expression, hek, h1, h2, hts0, hte0]
                          rw [if_neg (by simp), if_neg (by simp), if_neg (by simp)]
                          simp only [h4, hex]
                          rw [hI4']
                          simp [DefInterner.push_expr_type, List.append_assoc]
                        · rw [exprKeys_append, hkeys, exprKeys_expr_single]
                          simp only [reach, hek]
                          exact (((hsub1.append hsub2).append hsub4).append
                            (List.Sublist.refl _))
                        · refine pushesOrdered_append hordAll
                            (pushesOrdered_expr (.Array .Variable last_type) ?_)
                          intro c hc
                          simp only [checkedSubExprs, hek, List.mem_cons,
                            List.not_mem_nil, or_false] at hc
                          rcases hc with hc | hc
                          · subst hc
                            exact hasExprType_append_right I.idTypes
                              (hasExprType_append_left (hasExprType_append_left
                                (hasExprType_append_left
                                  (@hasExprType_of_mem Δ1 _ tstart (by rw [hΔ1]; simp))
                                  Δ2) _) Δ4)
                          · subst hc
                            exact hasExprType_append_right I.idTypes
                              (hasExprType_append_left (hasExprType_append_left
                                (hasExprType_append_right Δ1
                                  (@hasExprType_of_mem Δ2 _ tend (by rw [hΔ2]; simp)))
                                _) Δ4)
                        · intro _
                          exact ⟨Δ1 ++ Δ2 ++
                            [(TableId.ident fe.identifier, Typ.Constant)] ++ Δ4,
                            .Array .Variable last_type, rfl⟩
      | Prefix =>
        exact ⟨[], by simp [type_check_expression, hek],
          by simp [reach, hek, exprKeys], by simp [pushesOrdered],
          by simp [type_check_expression, hek]⟩
      | Predicate =>
        exact ⟨[], by simp [type_check_expression, hek],
          by simp [reach, hek, exprKeys], by simp [pushesOrdered],
          by simp [type_check_expression, hek]⟩
      | If =>
        exact ⟨[], by simp [type_check_expression, hek],
          by simp [reach, hek, exprKeys], by simp [pushesOrdered],
          by simp [type_check_expression, hek]⟩
    · -- check_expr_list
      intro I es
      cases es with
      | nil =>
        refine ⟨[], by simp [check_expr_list], by simp [reachList, exprKeys],
          by simp [pushesOrdered], ?_⟩
        intro ts _ c hc
        simp at hc
      | cons e rest =>
        rcases h1 : type_check_expression n I e with ⟨I1, r1⟩
        obtain ⟨Δ1, hI1, hsub1, hord1, hlast1⟩ := ihe I e
        rw [h1] at hI1 hlast1
        simp only at hI1 hlast1
        cases r1 with
        | some er =>
          refine ⟨Δ1, ?_, ?_, hord1, ?_⟩
          · simp only [check_expr_list, h1]
            exact hI1
          · refine hsub1.trans ?_
            simp only [reachList]
            exact List.sublist_append_left _ _
          · intro ts hts
            simp only [check_expr_list, h1] at hts
            simp at hts
        | none =>
          obtain ⟨Δ0, t0, hΔ1⟩ := hlast1 rfl
          cases ht : I1.id_type (.expr e) with
          | none =>
            refine ⟨Δ1, ?_, ?_, hord1, ?_⟩
            · simp only [check_expr_list, h1, ht]
              exact hI1
            · refine hsub1.trans ?_
              simp only [reachList]
              exact List.sublist_append_left _ _
            · intro ts hts
              simp only [check_expr_list, h1, ht] at hts
              simp at hts
          | some te =>
            rcases h2 : check_expr_list n I1 rest with ⟨I2, r2⟩
            obtain ⟨Δ2, hI2, hsub2, hord2, hok2⟩ := ihl I1 rest
            rw [h2] at hI2 hok2
            simp only at hI2 hok2
            rw [hI1] at hsub2 hord2
            have hI2' : I2 = { I with idTypes := I.idTypes ++ (Δ1 ++ Δ2) } := by
              rw [hI2, hI1]
              simp [List.append_assoc]
            cases r2 with
            | error er =>
              refine ⟨Δ1 ++ Δ2, ?_, ?_, pushesOrdered_append hord1 hord2, ?_⟩
              · simp only [check_expr_list, h1, ht, h2]
                exact hI2'
              · rw [exprKeys_append]
                simp only [reachList]
                exact hsub1.append hsub2
              · intro ts hts
                simp only [check_expr_list, h1, ht, h2] at hts
                simp at hts
            | ok ts2 =>
              refine ⟨Δ1 ++ Δ2, ?_, ?_, pushesOrdered_append hord1 hord2, ?_⟩
              · simp only [check_expr_list, h1, ht, h2]
                exact hI2'
              · rw [exprKeys_append]
                simp only [reachList]
                exact hsub1.append hsub2
              · intro ts hts c hc
                rw [List.mem_cons] at hc
                have hres : (check_expr_list (n + 1) I (e :: rest)).1 = I2 := by
                  simp only [check_expr_list, h1, ht, h2]
                rw [hres]
                rcases hc with hc | hc
                · subst hc
                  rw [hI2']
                  exact hasExprType_append_right I.idTypes
                    (hasExprType_append_left
                      (@hasExprType_of_mem Δ1 c t0 (by rw [hΔ1]; simp)) Δ2)
                · exact hok2 ts2 rfl c hc
    · -- stmt_type_check
      intro I s
      cases hsk : I.stmts s with
      | Block b =>
        obtain ⟨Δ, hI', hsub, hord⟩ := ihsl I b.statements
        refine ⟨Δ, ?_, ?_, hord⟩
        · simp [stmt_type_check, hsk, hI']
        · refine hsub.trans ?_
          simp [reachStmt, hsk]
      | Expression e =>
        obtain ⟨Δ, hI', hsub, hord, _⟩ := ihe I e
        refine ⟨Δ, ?_, ?_, hord⟩
        · simp [stmt_type_check, hsk, hI']
        · refine hsub.trans ?_
          simp [reachStmt, hsk]
      | Other =>
        exact ⟨[], by simp [stmt_type_check, hsk], by simp [reachStmt, hsk, exprKeys],
          by simp [pushesOrdered]⟩
    · -- check_stmt_list
      intro I ss
      cases ss with
      | nil =>
        exact ⟨[], by simp [check_stmt_list], by simp [reachStmtList, exprKeys],
          by simp [pushesOrdered]⟩
      | cons s rest =>
        rcases h1 : stmt_type_check n I s with ⟨I1, r1⟩
        obtain ⟨Δ1, hI1, hsub1, hord1⟩ := ihs I s
        rw [h1] at hI1
        simp only at hI1
        cases r1 with
        | some er =>
          refine ⟨Δ1, ?_, ?_, hord1⟩
          · simp [check_stmt_list, h1, hI1]
          · refine hsub1.trans ?_
            simp only [reachStmtList]
            exact List.sublist_append_left _ _
        | none =>
          obtain ⟨Δ2, hI2, hsub2, hord2⟩ := ihsl I1 rest
          subst hI1
          refine ⟨Δ1 ++ Δ2, ?_, ?_, ?_⟩
          · simp only [check_stmt_list, h1]
            rw [hI2]
            simp [List.append_assoc]
          · rw [exprKeys_append]
            simp only [reachStmtList]
            exact hsub1.append hsub2
          · exact pushesOrdered_append hord1 hord2

end NoirTC

namespace NoirTC

/-- C2 (amended): the `Call` arm applies the arity check before
type-checking any argument: whenever the parameter count differs from the
argument count, `type_check_expression` returns the arity error (carrying
both counts) with the interner unchanged, so no argument expression has
been checked or given a type when the error is raised. -/
theorem claim_c2 (n : Nat) (I : DefInterner) (expr_id : ExprId)
    (call_expr : HirCallExpression)
    (he : I.exprs expr_id = .Call call_expr)
    (hl : (I.funcs call_expr.func_id).parameters.length ≠ call_expr.arguments.length) :
    type_check_expression (n + 1) I expr_id =
      (I, some (.arityMismatch (I.funcs call_expr.func_id).parameters.length
        call_expr.arguments.length)) := by
  simp [type_check_expression, he, hl]

/-- A store holding one call expression (handle 0) whose callee takes no
parameters but which passes one argument, the integer literal at
handle 1. -/
def cexC2Interner : DefInterner := {
  exprs := fun e => if e = 0 then .Call ⟨0, [1]⟩ else .Literal (.Integer 5)
  stmts := fun _ => .Other
  ident_defs := fun _ => none
  funcs := fun _ => ⟨[], .Unit⟩
  idTypes := [] }

/-- C2 counterexample: on `cexC2Interner` the walker raises the arity
error (0 parameters, 1 argument) while the lone argument expression has
no recorded type — so the arguments had not been checked when the arity
error was raised, contradicting the claim as stated. -/
theorem claim_c2_counterexample :
    (type_check_expression 5 cexC2Interner 0).2 = some (.arityMismatch 0 1) ∧
    (type_check_expression 5 cexC2Interner 0).1.id_type (.expr 1) = none := by
  constructor <;> decide

/-- Witness for C2 at the concrete store `cexC2Interner`. -/
theorem claim_c2_witness :
    type_check_expression 1 cexC2Interner 0 =
      (cexC2Interner, some (.arityMismatch 0 1)) :=
  claim_c2 0 cexC2Interner 0 ⟨0, [1]⟩ rfl (by decide)

end NoirTC

namespace NoirTC

/-- C8 (amended): for a for-loop whose range bounds were checked
successfully — if the start bound's recorded type is not `Constant` the
start-range error is raised; if the start is `Constant` but the end is
not, the end-range error is raised; otherwise the loop variable is bound
to type `Constant` and, after the body block checks successfully, the
loop's recorded type is `Array(Variable, t)` where `t` is the recorded
type of the block's trailing expression statement, or `Unit` when the
block is empty or its last statement is neither an expression statement
nor a nested block; a trailing nested block is a hard internal failure
(`nestedBlockUnsupported`) and no type is recorded for the loop. -/
theorem claim_c8 (n : Nat) (I I1 I2 : DefInterner) (expr_id : ExprId)
    (for_expr : HirForExpression) (ts te : Typ)
    (he : I.exprs expr_id = .For for_expr)
    (h1 : type_check_expression n I for_expr.start_range = (I1, none))
    (h2 : type_check_expression n I1 for_expr.end_range = (I2, none))
    (hts : I2.id_type (.expr for_expr.start_range) = some ts)
    (hte : I2.id_type (.expr for_expr.end_range) = some te) :
    (ts ≠ .Constant →
      type_check_expression (n + 1) I expr_id = (I2, some .startRangeNotConstant)) ∧
    (ts = .Constant → te ≠ .Constant →
      type_check_expression (n + 1) I expr_id = (I2, some .endRangeNotConstant)) ∧
    ((I2.push_ident_type for_expr.identifier ts).id_type (.ident for_expr.identifier) =
      some ts) ∧
    (ts = .Constant → te = .Constant →
      ∀ I4, stmt_type_check n (I2.push_ident_type for_expr.identifier ts)
          for_expr.block = (I4, none) →
      ∀ block_stmt, I.stmts for_expr.block = .Block block_stmt →
        (block_stmt.statements.getLast? = none →
          type_check_expression (n + 1) I expr_id =
            (I4.push_expr_type expr_id (.Array .Variable .Unit), none)) ∧
        (∀ last_id, block_stmt.statements.getLast? = some last_id →
          ((∀ last_expr t, I.stmts last_id = .Expression last_expr →
              I4.id_type (.expr last_expr) = some t →
              type_check_expression (n + 1) I expr_id =
                (I4.push_expr_type expr_id (.Array .Variable t), none)) ∧
           (∀ b, I.stmts last_id = .Block b →
              type_check_expression (n + 1) I expr_id =
                (I4, some .nestedBlockUnsupported)) ∧
           (I.stmts last_id = .Other →
              type_check_expression (n + 1) I expr_id =
                (I4.push_expr_type expr_id (.Array .Variable .Unit), none))))) := by
  have hident : (I2.push_ident_type for_expr.identifier ts).id_type
      (.ident for_expr.identifier) = some ts := by
    simp [DefInterner.push_ident_type, DefInterner.id_type]
  refine ⟨?_, ?_, hident, ?_⟩
  · intro hne
    simp only [type_check_expression, he, h1, h2, hts, hte]
    rw [if_pos hne]
  · intro hc hne
    subst hc
    simp only [type_check_expression, he, h1, h2, hts, hte]
    rw [if_neg (by simp), if_pos hne]
  · intro hc1 hc2 I4 h4 block_stmt hbs
    subst hc1
    subst hc2
    -- statement shapes never change along a run
    obtain ⟨Δ1, hI1, -, -, -⟩ := (walker_invariants n).1 I for_expr.start_range
    rw [h1] at hI1
    simp only at hI1
    obtain ⟨Δ2, hI2, -, -, -⟩ := (walker_invariants n).1 I1 for_expr.end_range
    rw [h2] at hI2
    simp only at hI2
    obtain ⟨Δ4, hI4, -, -⟩ := (walker_invariants n).2.2.1
      (I2.push_ident_type for_expr.identifier .Constant) for_expr.block
    rw [h4] at hI4
    simp only at hI4
    have hI4st : I4.stmts = I.stmts := by
      rw [hI4, hI2, hI1]
      rfl
    have hmain : type_check_expression (n + 1) I expr_id =
        match extract_last_type_from_block I4 for_expr.block with
        | .error er => (I4, some er)
        | .ok last_type =>
            (I4.push_expr_type expr_id (.Array .Variable last_type), none) := by
      simp only [type_check_expression, he, h1, h2, hts, hte]
      rw [if_neg (by simp), if_neg (by simp), if_neg (by simp)]
      simp only [h4]
    constructor
    · intro hlast
      rw [hmain]
      rw [extract_last_type_from_block, hI4st, hbs]
      simp only [hlast]
    · intro last_id hlast
      refine ⟨?_, ?_, ?_⟩
      · intro last_expr t hstmt htyp
        rw [hmain]
        rw [extract_last_type_from_block, hI4st, hbs]
        simp only [hlast, hI4st, hstmt, htyp]
      · intro b hstmt
        rw [hmain]
        rw [extract_last_type_from_block, hI4st, hbs]
        simp only [hlast, hI4st, hstmt]
      · intro hstmt
        rw [hmain]
        rw [extract_last_type_from_block, hI4st, hbs]
        simp only [hlast, hI4st, hstmt]

/-- A store with one for-loop (handle 0) over constant bounds whose body
block's last (and only) statement is itself a block: statement 0 is
`Block [1]` and statement 1 is `Block []`. -/
def cexC8Interner : DefInterner := {
  exprs := fun e => if e = 0 then .For ⟨7, 1, 2, 0⟩ else .Literal (.Integer 0)
  stmts := fun s => if s = 0 then .Block ⟨[1]⟩ else
    if s = 1 then .Block ⟨[]⟩ else .Other
  ident_defs := fun _ => none
  funcs := fun _ => ⟨[], .Unit⟩
  idTypes := [] }

/-- C8 counterexample: on `cexC8Interner` the body's last statement is a
nested block — not an expression statement — and instead of recording
`Array(Variable, Unit)` as the claim states, the checker hits the
`extract_last_type_from_block` panic (`nestedBlockUnsupported`) and
records no type for the loop. -/
theorem claim_c8_counterexample :
    (type_check_expression 5 cexC8Interner 0).2 = some .nestedBlockUnsupported ∧
    (type_check_expression 5 cexC8Interner 0).1.id_type (.expr 0) = none := by
  constructor <;> decide

/-- A store with one for-loop (handle 0) over constant bounds whose body
block ends in the expression statement `Expression 3`, expression 3
being an integer literal. -/
def witC8Interner : DefInterner := {
  exprs := fun e => if e = 0 then .For ⟨7, 1, 2, 0⟩ else .Literal (.Integer 0)
  stmts := fun s => if s = 0 then .Block ⟨[1]⟩ else
    if s = 1 then .Expression 3 else .Other
  ident_defs := fun _ => none
  funcs := fun _ => ⟨[], .Unit⟩
  idTypes := [] }

/-- The interner state of `witC8Interner` after both bounds, the loop
variable and the body have been checked. -/
def witC8I4 : DefInterner :=
  (((witC8Interner.push_expr_type 1 .Constant).push_expr_type 2
    .Constant).push_ident_type 7 .Constant).push_expr_type 3 .Constant

/-- Witness for C8: on `witC8Interner` the loop records
`Array(Variable, Constant)`, the type of the body's trailing expression
statement. -/
theorem claim_c8_witness :
    type_check_expression 5 witC8Interner 0 =
      (witC8I4.push_expr_type 0 (.Array .Variable .Constant), none) :=
  (((claim_c8 4 witC8Interner (witC8Interner.push_expr_type 1 .Constant)
      ((witC8Interner.push_expr_type 1 .Constant).push_expr_type 2 .Constant) 0
      ⟨7, 1, 2, 0⟩ .Constant .Constant rfl rfl rfl rfl rfl).2.2.2 rfl rfl
      witC8I4 rfl ⟨[1]⟩ rfl).2 1 rfl).1 3 .Constant rfl rfl

end NoirTC

namespace NoirTC

/-- C9 (amended): during one successful checking pass over a store whose
reachable handles form a tree (`reach` has no duplicate) and carry no
pre-recorded types, the walker only appends to the type table; it records
at most one type per expression handle and never overwrites an existing
entry; every push happens only after all sub-expressions that the arm
checks have been checked and typed — the `Index` arm checks none, so its
index operand may stay untyped — and the root's push is the final entry
of the run. -/
theorem claim_c9 (n : Nat) (I : DefInterner) (e : ExprId) (I' : DefInterner)
    (hrun : type_check_expression n I e = (I', none))
    (hnodup : (reach n I.exprs I.stmts e).Nodup)
    (hfresh : ∀ h0 ∈ reach n I.exprs I.stmts e, hasExprType I.idTypes h0 = false) :
    ∃ Δ, I' = { I with idTypes := I.idTypes ++ Δ } ∧
      (exprKeys Δ).Nodup ∧
      (∀ h0 ∈ exprKeys Δ, hasExprType I.idTypes h0 = false) ∧
      (∃ Δ0 t, Δ = Δ0 ++ [(TableId.expr e, t)]) ∧
      pushesOrdered I.exprs I.idTypes Δ := by
  obtain ⟨Δ, hI', hsub, hord, hlast⟩ := (walker_invariants n).1 I e
  rw [hrun] at hI' hlast
  simp only at hI' hlast
  refine ⟨Δ, hI', hnodup.sublist hsub, ?_, hlast trivial, hord⟩
  intro h0 hh0
  exact hfresh h0 (hsub.subset hh0)

/-- A store with one index expression (handle 0) over a resolved
identifier of array type, whose index operand is expression handle 1. -/
def cexC9Interner : DefInterner := {
  exprs := fun e => if e = 0 then .Index ⟨0, 1⟩ else .Literal (.Integer 0)
  stmts := fun _ => .Other
  ident_defs := fun i => if i = 0 then some 5 else none
  funcs := fun _ => ⟨[], .Unit⟩
  idTypes := [(.ident 5, .Array (.Fixed 3) .FieldElement)] }

/-- C9 counterexample: on `cexC9Interner` the walker succeeds and records
a type for the index expression (handle 0) while its syntactic
sub-expression, the index operand at handle 1, never receives a type —
so a type is pushed before all of the expression's syntactic
sub-expressions have been checked, contradicting the claim as stated. -/
theorem claim_c9_counterexample :
    (type_check_expression 2 cexC9Interner 0).2 = none ∧
    (type_check_expression 2 cexC9Interner 0).1.id_type (.expr 0) =
      some .FieldElement ∧
    (type_check_expression 2 cexC9Interner 0).1.id_type (.expr 1) = none := by
  refine ⟨by decide, by decide, by decide⟩

/-- A store with one infix expression (handle 0) over two integer
literals at handles 1 and 2. -/
def witC9Interner : DefInterner := {
  exprs := fun e => if e = 0 then .Infix ⟨1, plainOp, 2⟩ else .Literal (.Integer 0)
  stmts := fun _ => .Other
  ident_defs := fun _ => none
  funcs := fun _ => ⟨[], .Unit⟩
  idTypes := [] }

/-- Witness for C9 on the concrete tree-shaped store `witC9Interner`. -/
theorem claim_c9_witness :
    ∃ Δ, (type_check_expression 3 witC9Interner 0).1 =
        { witC9Interner with idTypes := witC9Interner.idTypes ++ Δ } ∧
      (exprKeys Δ).Nodup ∧
      (∀ h0 ∈ exprKeys Δ, hasExprType witC9Interner.idTypes h0 = false) ∧
      (∃ Δ0 t, Δ = Δ0 ++ [(TableId.expr 0, t)]) ∧
      pushesOrdered witC9Interner.exprs witC9Interner.idTypes Δ :=
  claim_c9 3 witC9Interner 0 (type_check_expression 3 witC9Interner 0).1 rfl
    (by decide) (by decide)

end NoirTC
